import Mathlib

/-!
Verification of the chunking and retrieval pipeline of the knowledge-concierge
repository.  The segmenter `split_text_into_chunks` and the summary function
`get_document_summary` are embedded from `data_loader.py`; the answer
orchestration `generate_answer` is embedded from `rag_engine.py`.  Python
strings are modelled as lists of Unicode code points (`List Char`), so that
`len`, slicing and `strip` translate to list operations.
-/

/-- A Python string, modelled as its list of Unicode code points. -/
abbrev PyStr := List Char

/-- The whitespace characters removed by Python's `str.strip()` (ASCII range). -/
def isPySpace (c : Char) : Bool :=
  c = ' ' || c = '\t' || c = '\n' || c = '\r' || c = '\x0b' || c = '\x0c'

/-- Python `s.strip()`: drop leading and trailing whitespace. -/
def pyStrip (s : PyStr) : PyStr :=
  ((s.dropWhile isPySpace).reverse.dropWhile isPySpace).reverse

/-- The characters after which `re.split` with the zero-width pattern
lookbehind on the class 。．！？ and newline cuts the text
(`data_loader.py` line 153). -/
def isSentenceEnd (c : Char) : Bool :=
  c = '。' || c = '．' || c = '！' || c = '？' || c = '\n'

/-- `re.split` with a zero-width lookbehind after each sentence-ending
character: the text is cut right after every such character; a trailing
empty piece is produced when the text ends with one (as `re.split` does). -/
def splitKeepEnds : PyStr → PyStr → List PyStr
  | [], acc => [acc.reverse]
  | c :: rest, acc =>
    if isSentenceEnd c then (acc.reverse ++ [c]) :: splitKeepEnds rest []
    else splitKeepEnds rest (c :: acc)

/-- `sentences = [s.strip() for s in re.split(...) if s.strip()]`
(`data_loader.py` lines 153-155): the stripped, nonempty sentence units. -/
def sentenceUnits (text : PyStr) : List PyStr :=
  ((splitKeepEnds text []).map pyStrip).filter (fun s => !s.isEmpty)

/-- Python `s[-n:]` for `n > 0`: the last `min n (len s)` characters. -/
def pyTakeRight (n : Nat) (s : PyStr) : PyStr := s.drop (s.length - n)

/-- `overlap_text = "".join(current_chunk)[-overlap:] if overlap > 0 else ""`
(`data_loader.py` line 169). -/
def overlapText (overlap : Nat) (closed : PyStr) : PyStr :=
  if overlap > 0 then pyTakeRight overlap closed else []

/-- `current_chunk = [overlap_text] if overlap_text else []`
(`data_loader.py` line 170). -/
def startChunk (t : PyStr) : List PyStr :=
  if t.isEmpty then [] else [t]

/-- The accumulation loop of `split_text_into_chunks`
(`data_loader.py` lines 161-178): greedily pack sentence units into chunks;
when adding the next unit would exceed `chunk_size` and the running chunk is
nonempty, close it and start the next chunk from the trailing overlap slice. -/
def chunkSentences (chunk_size overlap : Nat) :
    List PyStr → List PyStr → Nat → List PyStr
  | [], current, _ => if current.isEmpty then [] else [current.flatten]
  | s :: rest, current, curLen =>
    if curLen + s.length > chunk_size && !current.isEmpty then
      current.flatten ::
        chunkSentences chunk_size overlap rest
          (startChunk (overlapText overlap current.flatten) ++ [s])
          ((overlapText overlap current.flatten).length + s.length)
    else
      chunkSentences chunk_size overlap rest (current ++ [s]) (curLen + s.length)

/-- `split_text_into_chunks(text, chunk_size=CHUNK_SIZE, overlap=CHUNK_OVERLAP)`
(`data_loader.py` lines 132-180, defaults `CHUNK_SIZE = 500`,
`CHUNK_OVERLAP = 50` from `config.py`). -/
def split_text_into_chunks (text : PyStr)
    (chunk_size : Nat := 500) (overlap : Nat := 50) : List PyStr :=
  if (pyStrip text).isEmpty then []
  else chunkSentences chunk_size overlap (sentenceUnits text) [] 0

/-- A retrieval result as produced by the vector store's `query_collection`
(the `vectorizer` module; its record shape `{text, source, score}` follows the
RetrievalResult data model, with the similarity score modelled as a rational). -/
structure RetrievalResult where
  text : String
  source : String
  score : ℚ
deriving DecidableEq

/-- One entry of the `sources` list built by `generate_answer`
(`rag_engine.py` lines 47-51). -/
structure SourceEntry where
  source : String
  text : String
  score : ℚ
deriving DecidableEq

/-- The dictionary returned by `generate_answer`
(`rag_engine.py` lines 82-85 and 87-90). -/
structure AnswerResult where
  answer : String
  sources : List SourceEntry
deriving DecidableEq

/-- The sentinel context used when retrieval returns nothing
(`rag_engine.py` line 54). -/
def noResultsSentinel : String :=
  "関連する資料が見つかりませんでした。一般的な知識に基づいて回答するか、資料が不足している旨を伝えてください。"

/-- One labelled context block: three dashes, 資料, the 1-based index, three
dashes, then a newline and the chunk text (`rag_engine.py` line 46). -/
def contextPart (i : Nat) (t : String) : String :=
  "--- 資料 " ++ toString (i + 1) ++ " ---\n" ++ t

/-- Context construction of `generate_answer` (`rag_engine.py` lines 40-54):
the labelled, double-newline-joined context text and the `sources` list,
one entry per retrieved chunk in retrieval order. -/
def buildContextAndSources (relevant_chunks : List RetrievalResult) :
    String × List SourceEntry :=
  if relevant_chunks.isEmpty then (noResultsSentinel, [])
  else
    (String.intercalate "\n\n"
        (relevant_chunks.enum.map (fun p => contextPart p.1 p.2.text)),
     relevant_chunks.map (fun c =>
        { source := c.source, text := c.text, score := c.score }))

/-- The prompt template of `generate_answer` (`rag_engine.py` lines 57-74). -/
def answerPrompt (context_text query : String) : String :=
  "\nあなたは誠実で優秀なAIアシスタント「AIナレッジ・コンシェルジュ」です。\n提供された「参考資料」の内容のみに基づいて、ユーザーの質問に正確に答えてください。\n\n【制約事項】\n・資料に記載がない場合は「提供された資料にはその情報が含まれていません」とはっきり伝えてください。\n・推測で答えないでください。\n・回答は簡潔かつ丁寧な日本語で行ってください。\n・専門用語は必要に応じて分かりやすく解説してください。\n\n【参考資料】\n"
    ++ context_text ++ "\n\n【ユーザーの質問】\n" ++ query ++ "\n\n【回答】\n"

/-- The error-message text prepended in the `except` branch of
`generate_answer` (`rag_engine.py` line 88). -/
def generationErrorText : String := "?? 回答生成中にエラーが発生しました: "

/-- `generate_answer(query, api_key, ...)` (`rag_engine.py` lines 18-90).
The already-retrieved chunks are passed in (the call to `query_collection`
lives in the external `vectorizer` module), and the Gemini call is the
injected `gen`; a Python exception raised by it is `Except.error`.  The
result type `Except String AnswerResult` records whether the Python function
returns normally (`Except.ok`) or lets an exception escape (`Except.error`);
the source catches every exception and returns a dictionary, so both match
arms produce `Except.ok`. -/
def generate_answer (relevant_chunks : List RetrievalResult) (query : String)
    (gen : String → Except String String) : Except String AnswerResult :=
  match gen (answerPrompt (buildContextAndSources relevant_chunks).1 query) with
  | Except.ok text =>
      Except.ok { answer := text, sources := (buildContextAndSources relevant_chunks).2 }
  | Except.error e =>
      Except.ok { answer := generationErrorText ++ e,
                  sources := (buildContextAndSources relevant_chunks).2 }

/-- A chunk dictionary as built by `load_pdf` / `load_web`
(`data_loader.py` lines 50-55, 116-120): always carries a text and a source. -/
structure DocChunk where
  text : String
  source : String
deriving DecidableEq

/-- The summary dictionary of `get_document_summary`
(`data_loader.py` lines 223-227); `sources` is built as a Python `set`,
modelled as a `Finset`. -/
structure DocumentSummary where
  total_chunks : Nat
  total_chars : Nat
  sources : Finset String
deriving DecidableEq

/-- `get_document_summary(chunks)` (`data_loader.py` lines 205-227). -/
def get_document_summary (chunks : List DocChunk) : DocumentSummary :=
  { total_chunks := chunks.length,
    total_chars := chunks.foldl (fun n c => n + c.text.length) 0,
    sources := chunks.foldl (fun s c => insert c.source s) ∅ }

/-! ### Helper lemmas shared by several results -/

theorem buildContext_sources_text (rs : List RetrievalResult) :
    (buildContextAndSources rs).2.map SourceEntry.text = rs.map RetrievalResult.text := by
  unfold buildContextAndSources
  cases rs with
  | nil => rfl
  | cons a l => simp [List.map_map, Function.comp]

theorem buildContext_sources_source (rs : List RetrievalResult) :
    (buildContextAndSources rs).2.map SourceEntry.source = rs.map RetrievalResult.source := by
  unfold buildContextAndSources
  cases rs with
  | nil => rfl
  | cons a l => simp [List.map_map, Function.comp]

theorem buildContext_sources_score (rs : List RetrievalResult) :
    (buildContextAndSources rs).2.map SourceEntry.score = rs.map RetrievalResult.score := by
  unfold buildContextAndSources
  cases rs with
  | nil => rfl
  | cons a l => simp [List.map_map, Function.comp]

theorem generate_answer_shape (rs : List RetrievalResult) (q : String)
    (g : String → Except String String) :
    ∃ a, generate_answer rs q g
      = Except.ok { answer := a, sources := (buildContextAndSources rs).2 } := by
  unfold generate_answer
  cases g (answerPrompt (buildContextAndSources rs).1 q) with
  | ok t => exact ⟨t, rfl⟩
  | error e => exact ⟨generationErrorText ++ e, rfl⟩

theorem foldl_add_length {α : Type} (f : α → Nat) :
    ∀ (l : List α) (n : Nat), l.foldl (fun n c => n + f c) n = n + (l.map f).sum
  | [], n => by simp
  | a :: l, n => by
    simp only [List.foldl_cons, List.map_cons, List.sum_cons]
    rw [foldl_add_length f l (n + f a)]
    omega

theorem foldl_insert_toFinset {α : Type} (g : α → String) :
    ∀ (l : List α) (s : Finset String),
      l.foldl (fun s c => insert (g c) s) s = s ∪ (l.map g).toFinset
  | [], s => by simp
  | a :: l, s => by
    simp only [List.foldl_cons, List.map_cons, List.toFinset_cons]
    rw [foldl_insert_toFinset g l (insert (g a) s), Finset.insert_union, Finset.union_insert]

/-! ### Claim theorems (simple claims) -/

/-- Claim C8: for every input text that is empty or consists only of
whitespace, `split_text_into_chunks` returns the empty sequence (and raises
no error), for every `max_size` and `overlap`. -/
theorem split_whitespace_only_empty (text : PyStr) (chunk_size overlap : Nat)
    (h : ∀ c ∈ text, isPySpace c = true) :
    split_text_into_chunks text chunk_size overlap = [] := by
  have h1 : text.dropWhile isPySpace = [] := List.dropWhile_eq_nil_iff.mpr h
  have hstrip : pyStrip text = [] := by
    unfold pyStrip
    rw [h1]
    rfl
  simp [split_text_into_chunks, hstrip]

/-- Witness for claim C8 at the whitespace-only input `" \t \n "`. -/
theorem split_whitespace_only_empty_witness :
    (∀ c ∈ (" \t \n ".data), isPySpace c = true) ∧
      split_text_into_chunks (" \t \n ".data) 7 3 = [] :=
  ⟨by decide, split_whitespace_only_empty (" \t \n ".data) 7 3 (by decide)⟩

/-- Claim C2 does not hold: on `"A. B. C."` with `chunk_size = 3` and
`overlap = 0`, the boundary heuristic does not cut at ASCII periods (only at
。．！？ and newline), so the output is not `["A.", "B.", "C."]`. -/
theorem ascii_scenario_counterexample :
    split_text_into_chunks ("A. B. C.".data) 3 0
      ≠ ["A.".data, "B.".data, "C.".data] := by decide

/-- Claim C2 amended: `"A. B. C."` contains no recognised sentence boundary
(ASCII `.` is not in the class 。．！？ plus newline), so the whole string is
a single sentence unit and the result is the single chunk `["A. B. C."]`. -/
theorem ascii_scenario_single_chunk :
    split_text_into_chunks ("A. B. C.".data) 3 0 = ["A. B. C.".data] := by decide

/-- Claim C5: on empty retrieval, the context is the fixed sentinel and the
sources list is empty; otherwise the context is the double-newline join of the
labelled blocks of the retrieved texts in retrieval order, and the sources
list carries, in order, the same text, source label and score as the
retrieved results. -/
theorem buildContext_spec (relevant_chunks : List RetrievalResult) :
    (relevant_chunks = [] →
       buildContextAndSources relevant_chunks = (noResultsSentinel, [])) ∧
    (buildContextAndSources relevant_chunks).2.map SourceEntry.text
        = relevant_chunks.map RetrievalResult.text ∧
    (buildContextAndSources relevant_chunks).2.map SourceEntry.source
        = relevant_chunks.map RetrievalResult.source ∧
    (buildContextAndSources relevant_chunks).2.map SourceEntry.score
        = relevant_chunks.map RetrievalResult.score ∧
    (relevant_chunks ≠ [] →
       (buildContextAndSources relevant_chunks).1
         = String.intercalate "\n\n"
             (((relevant_chunks.map RetrievalResult.text).enum).map
               (fun p => contextPart p.1 p.2))) := by
  refine ⟨?_, buildContext_sources_text _, buildContext_sources_source _,
          buildContext_sources_score _, ?_⟩
  · intro h; subst h; rfl
  · intro h
    unfold buildContextAndSources
    rw [if_neg (by simpa using h)]
    rw [List.enum_map]
    simp only [List.map_map]
    refine congrArg _ ?_
    apply List.map_congr_left
    intro p _
    cases p
    rfl

/-- Witness for claim C5 at a one-element retrieval list. -/
theorem buildContext_spec_witness :
    (([⟨"本文", "出典", (1 : ℚ) / 2⟩] : List RetrievalResult) ≠ []) ∧
    (buildContextAndSources [⟨"本文", "出典", (1 : ℚ) / 2⟩]).1
      = String.intercalate "\n\n"
          ((([⟨"本文", "出典", (1 : ℚ) / 2⟩] :
              List RetrievalResult).map RetrievalResult.text).enum.map
            (fun p => contextPart p.1 p.2)) ∧
    (buildContextAndSources [⟨"本文", "出典", (1 : ℚ) / 2⟩]).2.map SourceEntry.text
      = ([⟨"本文", "出典", (1 : ℚ) / 2⟩] : List RetrievalResult).map RetrievalResult.text :=
  ⟨List.cons_ne_nil _ _,
   (buildContext_spec [⟨"本文", "出典", (1 : ℚ) / 2⟩]).2.2.2.2 (List.cons_ne_nil _ _),
   (buildContext_spec [⟨"本文", "出典", (1 : ℚ) / 2⟩]).2.1⟩

/-- Claim C6: `get_document_summary` returns the number of chunks, the sum of
the lengths of their texts, and the set of distinct source labels. -/
theorem get_document_summary_spec (chunks : List DocChunk) :
    (get_document_summary chunks).total_chunks = chunks.length ∧
    (get_document_summary chunks).total_chars
        = (chunks.map (fun c => c.text.length)).sum ∧
    (get_document_summary chunks).sources = (chunks.map DocChunk.source).toFinset := by
  refine ⟨rfl, ?_, ?_⟩
  · simpa using foldl_add_length (fun c => c.text.length) chunks 0
  · simpa using foldl_insert_toFinset DocChunk.source chunks ∅

/-- Claim C7 does not hold: when the generation call fails, `generate_answer`
does not surface a typed error — it catches the exception and returns a
normal result whose answer embeds the error message. -/
theorem generation_failure_counterexample :
    generate_answer [⟨"資料本文", "出典", 0⟩] "質問" (fun _ => Except.error "boom")
      = Except.ok { answer := generationErrorText ++ "boom",
                    sources := [⟨"出典", "資料本文", 0⟩] } := rfl

/-- Claim C7 amended: when the generation call fails, `generate_answer`
catches the failure and returns it as a normal success value whose `answer`
is the fixed error prefix followed by the failure message, with the `sources`
list untouched; no typed error reaches the caller. -/
theorem generation_failure_caught (relevant_chunks : List RetrievalResult)
    (query e : String) :
    generate_answer relevant_chunks query (fun _ => Except.error e)
      = Except.ok { answer := generationErrorText ++ e,
                    sources := (buildContextAndSources relevant_chunks).2 } := rfl

/-- Claim C9: every run of `generate_answer` returns normally with an answer
string and a sources list holding one entry per retrieved chunk in retrieval
order with the same text, and the sources list does not depend on whether the
generation call succeeds or raises. -/
theorem generate_answer_sources_stable (relevant_chunks : List RetrievalResult)
    (query : String) (gen gen2 : String → Except String String) :
    ∃ r r2 : AnswerResult,
      generate_answer relevant_chunks query gen = Except.ok r ∧
      generate_answer relevant_chunks query gen2 = Except.ok r2 ∧
      r.sources = r2.sources ∧
      r.sources.length = relevant_chunks.length ∧
      r.sources.map SourceEntry.text = relevant_chunks.map RetrievalResult.text := by
  obtain ⟨a, ha⟩ := generate_answer_shape relevant_chunks query gen
  obtain ⟨a2, ha2⟩ := generate_answer_shape relevant_chunks query gen2
  refine ⟨_, _, ha, ha2, rfl, ?_, buildContext_sources_text _⟩
  have := congrArg List.length (buildContext_sources_text relevant_chunks)
  simpa using this

/-! ### Structure of the chunk accumulation loop -/

theorem startChunk_flatten (t s : PyStr) : (startChunk t ++ [s]).flatten = t ++ s := by
  unfold startChunk
  split
  · next h => simp [List.isEmpty_iff.mp h]
  · simp

theorem overlapText_length_le (ov : Nat) (c : PyStr) : (overlapText ov c).length ≤ ov := by
  unfold overlapText
  split
  · simp [pyTakeRight]
    omega
  · simp

theorem chunkSentences_ne_nil (cs ov : Nat) :
    ∀ (ss current : List PyStr) (curLen : Nat),
      current ≠ [] → chunkSentences cs ov ss current curLen ≠ []
  | [], current, curLen, h => by
    unfold chunkSentences
    rw [if_neg (by simpa using h)]
    exact List.cons_ne_nil _ _
  | s :: rest, current, curLen, h => by
    unfold chunkSentences
    split
    · exact List.cons_ne_nil _ _
    · exact chunkSentences_ne_nil cs ov rest (current ++ [s]) (curLen + s.length) (by simp)

theorem chunkSentences_head_extends (cs ov : Nat) :
    ∀ (ss current : List PyStr) (curLen : Nat) (c : PyStr),
      (chunkSentences cs ov ss current curLen).head? = some c →
      current.flatten <+: c
  | [], current, curLen, c, h => by
    unfold chunkSentences at h
    split at h
    · simp at h
    · simp at h
      exact h ▸ ⟨[], List.append_nil _⟩
  | s :: rest, current, curLen, c, h => by
    unfold chunkSentences at h
    split at h
    · simp at h
      exact h ▸ ⟨[], List.append_nil _⟩
    · have ih := chunkSentences_head_extends cs ov rest (current ++ [s]) (curLen + s.length) c h
      exact List.IsPrefix.trans ⟨s, by simp⟩ ih

theorem chunkSentences_chain (cs ov : Nat) :
    ∀ (ss current : List PyStr) (curLen : Nat),
      List.Chain' (fun c1 c2 => overlapText ov c1 <+: c2)
        (chunkSentences cs ov ss current curLen)
  | [], current, curLen => by
    unfold chunkSentences
    split
    · exact List.chain'_nil
    · exact List.chain'_singleton _
  | s :: rest, current, curLen => by
    unfold chunkSentences
    split
    · refine List.chain'_cons'.mpr ⟨?_, chunkSentences_chain cs ov rest _ _⟩
      intro y hy
      have hpre := chunkSentences_head_extends cs ov rest
        (startChunk (overlapText ov current.flatten) ++ [s])
        ((overlapText ov current.flatten).length + s.length) y hy
      rw [startChunk_flatten] at hpre
      exact List.IsPrefix.trans ⟨s, rfl⟩ hpre
    · exact chunkSentences_chain cs ov rest (current ++ [s]) (curLen + s.length)

theorem split_chunks_chain (text : PyStr) (cs ov : Nat) :
    List.Chain' (fun c1 c2 => overlapText ov c1 <+: c2)
      (split_text_into_chunks text cs ov) := by
  unfold split_text_into_chunks
  split
  · exact List.chain'_nil
  · exact chunkSentences_chain cs ov (sentenceUnits text) [] 0

/-- Claim C3: with `overlap > 0`, whenever two chunks are consecutive in the
output of `split_text_into_chunks` and the first has length at least
`overlap`, the second starts with the last `overlap` characters of the first
(`pyTakeRight overlap c1`, whose length is then exactly `overlap`). -/
theorem overlap_carried_between_chunks (text : PyStr) (cs ov : Nat) (hov : 0 < ov)
    (pre post : List PyStr) (c1 c2 : PyStr)
    (hsplit : split_text_into_chunks text cs ov = pre ++ c1 :: c2 :: post)
    (hlen : ov ≤ c1.length) :
    pyTakeRight ov c1 <+: c2 ∧ (pyTakeRight ov c1).length = ov := by
  have hch := split_chunks_chain text cs ov
  rw [hsplit] at hch
  have hrel := (List.chain'_append_cons_cons.mp hch).2.1
  have hoeq : overlapText ov c1 = pyTakeRight ov c1 := by
    unfold overlapText
    rw [if_pos hov]
  refine ⟨hoeq ▸ hrel, ?_⟩
  simp [pyTakeRight]
  omega

/-- Witness for claim C3: on `"ab。cd。"` with `chunk_size = 3`,
`overlap = 2`, the chunks are `["ab。", "b。cd。"]` and the second starts
with the last two characters `"b。"` of the first. -/
theorem overlap_carried_between_chunks_witness :
    (0 < 2) ∧
    (split_text_into_chunks ("ab。cd。".data) 3 2
      = [] ++ ("ab。".data) :: ("b。cd。".data) :: []) ∧
    (2 ≤ ("ab。".data).length) ∧
    (pyTakeRight 2 ("ab。".data) <+: ("b。cd。".data) ∧
      (pyTakeRight 2 ("ab。".data)).length = 2) :=
  ⟨by decide, by decide, by decide,
    overlap_carried_between_chunks ("ab。cd。".data) 3 2 (by decide)
      [] [] ("ab。".data) ("b。cd。".data) (by decide) (by decide)⟩

/-- Claim C4 does not hold: on `"ab。cd。"` with `chunk_size = 3` and
`overlap = 10`, the first chunk `"ab。"` closes with length `3 < 10`, yet the
next chunk is `"ab。cd。"` — it starts with the entire previous chunk, not
empty, and does not begin with the next sentence unit `"cd。"`. -/
theorem short_chunk_counterexample :
    split_text_into_chunks ("ab。cd。".data) 3 10 = ["ab。".data, "ab。cd。".data] ∧
    ("ab。".data).length < 10 ∧
    ("ab。cd。".data).take 3 = "ab。".data ∧
    ("ab。cd。".data).take 3 ≠ "cd。".data := by decide

/-- Claim C4 amended: with `overlap > 0`, when a closed chunk is strictly
shorter than `overlap`, the next chunk starts with the entire closed chunk
(the trailing slice `[-overlap:]` of a string shorter than `overlap` is the
whole string), not with an empty carry-over. -/
theorem short_chunk_carried_whole (text : PyStr) (cs ov : Nat) (hov : 0 < ov)
    (pre post : List PyStr) (c1 c2 : PyStr)
    (hsplit : split_text_into_chunks text cs ov = pre ++ c1 :: c2 :: post)
    (hlen : c1.length < ov) :
    c1 <+: c2 := by
  have hch := split_chunks_chain text cs ov
  rw [hsplit] at hch
  have hrel := (List.chain'_append_cons_cons.mp hch).2.1
  have hoeq : overlapText ov c1 = c1 := by
    unfold overlapText pyTakeRight
    rw [if_pos hov]
    have h0 : c1.length - ov = 0 := by omega
    rw [h0, List.drop_zero]
  rwa [hoeq] at hrel

/-- Witness for claim C4 (amended) on `"ab。cd。"` with `chunk_size = 3`,
`overlap = 10`: the second chunk `"ab。cd。"` starts with the whole first
chunk `"ab。"` of length `3 < 10`. -/
theorem short_chunk_carried_whole_witness :
    (0 < 10) ∧
    (split_text_into_chunks ("ab。cd。".data) 3 10
      = [] ++ ("ab。".data) :: ("ab。cd。".data) :: []) ∧
    (("ab。".data).length < 10) ∧
    ("ab。".data <+: "ab。cd。".data) :=
  ⟨by decide, by decide, by decide,
    short_chunk_carried_whole ("ab。cd。".data) 3 10 (by decide)
      [] [] ("ab。".data) ("ab。cd。".data) (by decide) (by decide)⟩

/-! ### Size bound for chunks -/

theorem chunkSentences_size (cs ov : Nat) (units : List PyStr) :
    ∀ (ss current : List PyStr) (curLen : Nat),
      (∀ u ∈ ss, u ∈ units) →
      (∃ t rs, current = startChunk t ++ rs ∧ t.length ≤ ov ∧ (∀ u ∈ rs, u ∈ units) ∧
        (cs < current.flatten.length → ∃ u, rs = [u])) →
      curLen = current.flatten.length →
      ∀ c ∈ chunkSentences cs ov ss current curLen,
        c.length ≤ cs ∨ ∃ p u, c = p ++ u ∧ p.length ≤ ov ∧ u ∈ units
  | [], current, curLen, hss, hinv, hclen, c, hc => by
    unfold chunkSentences at hc
    split at hc
    · simp at hc
    · simp at hc
      subst hc
      by_cases hbig : cs < current.flatten.length
      · obtain ⟨t, rs, hcur, ht, hrs, hone⟩ := hinv
        obtain ⟨u, hu⟩ := hone hbig
        subst hu
        refine Or.inr ⟨t, u, ?_, ht, hrs u (by simp)⟩
        rw [hcur, startChunk_flatten]
      · exact Or.inl (by omega)
  | s :: rest, current, curLen, hss, hinv, hclen, c, hc => by
    unfold chunkSentences at hc
    split at hc
    · rcases List.mem_cons.mp hc with hceq | hcrec
      · subst hceq
        by_cases hbig : cs < current.flatten.length
        · obtain ⟨t, rs, hcur, ht, hrs, hone⟩ := hinv
          obtain ⟨u, hu⟩ := hone hbig
          subst hu
          refine Or.inr ⟨t, u, ?_, ht, hrs u (by simp)⟩
          rw [hcur, startChunk_flatten]
        · exact Or.inl (by omega)
      · refine chunkSentences_size cs ov units rest _ _
          (fun u hu => hss u (List.mem_cons_of_mem _ hu)) ?_ ?_ c hcrec
        · refine ⟨overlapText ov current.flatten, [s], rfl, overlapText_length_le ov _,
            ?_, fun _ => ⟨s, rfl⟩⟩
          intro x hx
          simp at hx
          subst hx
          exact hss _ (by simp)
        · rw [startChunk_flatten]
          simp
    · next hcond =>
      have hor : current = [] ∨ curLen + s.length ≤ cs := by
        by_cases hnil : current = []
        · exact Or.inl hnil
        · right
          by_contra hgt
          refine hcond ?_
          have h1 : current.isEmpty = false := by
            simpa using hnil
          simp [h1]
          omega
      refine chunkSentences_size cs ov units rest (current ++ [s]) (curLen + s.length)
        (fun u hu => hss u (List.mem_cons_of_mem _ hu)) ?_ ?_ c hc
      · obtain ⟨t, rs, hcur, ht, hrs, hone⟩ := hinv
        rcases hor with hnil | hle
        · subst hnil
          refine ⟨[], [s], by simp [startChunk], by simp, ?_, fun _ => ⟨s, rfl⟩⟩
          intro x hx
          simp at hx
          subst hx
          exact hss _ (by simp)
        · refine ⟨t, rs ++ [s], by rw [hcur, List.append_assoc], ht, ?_, ?_⟩
          · intro u hu
            rcases List.mem_append.mp hu with h | h
            · exact hrs u h
            · simp at h
              subst h
              exact hss _ (by simp)
          · intro hbig
            exfalso
            rw [List.flatten_append] at hbig
            simp only [List.flatten_cons, List.flatten_nil, List.append_nil,
              List.length_append] at hbig
            omega
      · rw [List.flatten_append]
        simp only [List.flatten_cons, List.flatten_nil, List.append_nil,
          List.length_append, hclen]

set_option maxRecDepth 10000 in
/-- Claim C1 does not hold as stated: at the default parameters
`chunk_size = 500`, `overlap = 50`, a text of two sentences of lengths 460
and 480 (each below the cap) produces a second chunk of length 530 — the
overlap carry-over plus a whole sentence — so a chunk can exceed `max_size`
without being a single over-long sentence. -/
theorem chunk_size_bound_counterexample :
    (split_text_into_chunks
        (List.replicate 459 'a' ++ '。' :: (List.replicate 479 'b' ++ ['。']))).map
        List.length = [460, 530] ∧
    (sentenceUnits
        (List.replicate 459 'a' ++ '。' :: (List.replicate 479 'b' ++ ['。']))).map
        List.length = [460, 480] := by decide

/-- Claim C1 amended: every chunk produced by `split_text_into_chunks` either
has length at most `max_size`, or consists of an overlap carry-over of at most
`overlap` characters followed by one whole, unsplit sentence unit (the
original exception — a single sentence longer than `max_size` — is the case
of an empty carry-over). -/
theorem chunk_size_bound (text : PyStr) (cs ov : Nat) (c : PyStr)
    (hc : c ∈ split_text_into_chunks text cs ov) :
    c.length ≤ cs ∨ ∃ p u, c = p ++ u ∧ p.length ≤ ov ∧ u ∈ sentenceUnits text := by
  unfold split_text_into_chunks at hc
  split at hc
  · simp at hc
  · refine chunkSentences_size cs ov (sentenceUnits text) (sentenceUnits text) [] 0
      (fun u hu => hu) ⟨[], [], rfl, by simp, by simp, ?_⟩ rfl c hc
    intro hbig
    simp at hbig

/-- Witness for claim C1 (amended): the over-long chunk `"aaaa。bbbbbbbb。"`
produced from `"aaaaaa。bbbbbbbb。"` at `chunk_size = 10`, `overlap = 5`
decomposes into the carry-over `"aaaa。"` plus the whole unit
`"bbbbbbbb。"`. -/
theorem chunk_size_bound_witness :
    ("aaaa。bbbbbbbb。".data ∈ split_text_into_chunks ("aaaaaa。bbbbbbbb。".data) 10 5) ∧
    (("aaaa。bbbbbbbb。".data).length ≤ 10 ∨
      ∃ p u, "aaaa。bbbbbbbb。".data = p ++ u ∧ p.length ≤ 5 ∧
        u ∈ sentenceUnits ("aaaaaa。bbbbbbbb。".data)) :=
  ⟨by decide, chunk_size_bound ("aaaaaa。bbbbbbbb。".data) 10 5 ("aaaa。bbbbbbbb。".data) (by decide)⟩

/-! ### Zero-overlap partition -/

theorem overlapText_zero (c : PyStr) : overlapText 0 c = [] := by
  simp [overlapText]

theorem chunkSentences_zero_groups (cs : Nat) :
    ∀ (ss current : List PyStr) (curLen : Nat),
      ∃ groups : List (List PyStr),
        (∀ g ∈ groups, g ≠ []) ∧
        groups.flatten = current ++ ss ∧
        chunkSentences cs 0 ss current curLen = groups.map List.flatten
  | [], current, curLen => by
    unfold chunkSentences
    split
    · next h => exact ⟨[], by simp, by simp [List.isEmpty_iff.mp h], rfl⟩
    · next h =>
      refine ⟨[current], ?_, by simp, rfl⟩
      intro g hg
      simp at hg
      subst hg
      simpa using h
  | s :: rest, current, curLen => by
    unfold chunkSentences
    split
    · next h =>
      have hemp : current ≠ [] := by
        simp at h
        exact h.2
      obtain ⟨groups, h1, h2, h3⟩ := chunkSentences_zero_groups cs rest [s] (0 + s.length)
      refine ⟨current :: groups, ?_, ?_, ?_⟩
      · intro g hg
        rcases List.mem_cons.mp hg with rfl | hg2
        · exact hemp
        · exact h1 g hg2
      · simp [h2]
      · simp only [List.map_cons]
        rw [← h3, overlapText_zero]
        rfl
    · obtain ⟨groups, h1, h2, h3⟩ :=
        chunkSentences_zero_groups cs rest (current ++ [s]) (curLen + s.length)
      exact ⟨groups, h1, by simpa [List.append_assoc] using h2, h3⟩

theorem splitKeepEnds_flatten :
    ∀ (text acc : PyStr), (splitKeepEnds text acc).flatten = acc.reverse ++ text
  | [], acc => by simp [splitKeepEnds]
  | c :: rest, acc => by
    unfold splitKeepEnds
    split
    · simp [splitKeepEnds_flatten rest []]
    · simp [splitKeepEnds_flatten rest (c :: acc)]

theorem pyStrip_nil_of_all_space (s : PyStr) (h : ∀ c ∈ s, isPySpace c = true) :
    pyStrip s = [] := by
  have h1 : s.dropWhile isPySpace = [] := List.dropWhile_eq_nil_iff.mpr h
  unfold pyStrip
  rw [h1]
  rfl

theorem all_space_of_pyStrip_nil (s : PyStr) (h : pyStrip s = []) :
    ∀ c ∈ s, isPySpace c = true := by
  unfold pyStrip at h
  have h2 : (s.dropWhile isPySpace).reverse.dropWhile isPySpace = [] := by
    have h3 := congrArg List.reverse h
    simpa using h3
  have hdw : ∀ c ∈ s.dropWhile isPySpace, isPySpace c = true := by
    intro c hc
    exact List.dropWhile_eq_nil_iff.mp h2 c (List.mem_reverse.mpr hc)
  intro c hc
  have hsplit : s.takeWhile isPySpace ++ s.dropWhile isPySpace = s :=
    List.takeWhile_append_dropWhile isPySpace s
  rw [← hsplit] at hc
  rcases List.mem_append.mp hc with hmem | hmem
  · exact List.mem_takeWhile_imp hmem
  · exact hdw c hmem

theorem sentenceUnits_nil_of_strip_nil (text : PyStr) (h : pyStrip text = []) :
    sentenceUnits text = [] := by
  have hall := all_space_of_pyStrip_nil text h
  unfold sentenceUnits
  rw [List.filter_eq_nil_iff]
  intro a ha
  simp only [List.mem_map] at ha
  obtain ⟨piece, hpiece, rfl⟩ := ha
  have hsub : ∀ c ∈ piece, isPySpace c = true := by
    intro c hcp
    apply hall
    have hmem : c ∈ (splitKeepEnds text []).flatten :=
      List.mem_flatten.mpr ⟨piece, hpiece, hcp⟩
    rw [splitKeepEnds_flatten text []] at hmem
    simpa using hmem
  have hps : pyStrip piece = [] := pyStrip_nil_of_all_space piece hsub
  simp [hps]

theorem flatten_map_flatten (l : List (List PyStr)) :
    (l.map List.flatten).flatten = l.flatten.flatten := by
  induction l with
  | nil => rfl
  | cons a t ih => simp [List.flatten_append, ih]

/-- Claim C10: with `overlap = 0`, the chunks returned by
`split_text_into_chunks` partition the stripped sentence units: the unit list
splits into consecutive nonempty groups whose concatenations are exactly the
chunks (so every unit lands in exactly one chunk), and the concatenation of
all chunks equals the concatenation of all units — no text duplicated or
lost. -/
theorem zero_overlap_partition (text : PyStr) (cs : Nat) :
    ∃ groups : List (List PyStr),
      (∀ g ∈ groups, g ≠ []) ∧
      groups.flatten = sentenceUnits text ∧
      split_text_into_chunks text cs 0 = groups.map List.flatten ∧
      (split_text_into_chunks text cs 0).flatten = (sentenceUnits text).flatten := by
  unfold split_text_into_chunks
  split
  · next h =>
    have hnil : sentenceUnits text = [] :=
      sentenceUnits_nil_of_strip_nil text (by simpa using h)
    exact ⟨[], by simp, by simp [hnil], rfl, by simp [hnil]⟩
  · obtain ⟨groups, h1, h2, h3⟩ := chunkSentences_zero_groups cs (sentenceUnits text) [] 0
    simp only [List.nil_append] at h2
    refine ⟨groups, h1, h2, h3, ?_⟩
    rw [h3, ← h2, flatten_map_flatten]
